import Mathlib

/-!
# Verification of the `essay-pipeline` repository

Shallow embedding of `src/validator.py`, `src/indexer.py` and the parts of
the Python runtime they rely on.  Python values produced by the YAML parser
are modelled by the inductive type `Yaml`; Python operations that can raise
are modelled in the `Except String` monad (`PyResult`), the error string
standing for the exception message.  The external libraries `yaml`
(`yaml.safe_load`) and `re` (`re.match`) are treated as oracles: the core
definitions are parameterised over them, and a small concrete model
`yamlSafeLoad` (faithful to PyYAML on the handful of block strings it is
applied to) is used for concrete counterexamples and witnesses.
-/

namespace EssayPipeline

/-- A Python value as produced by `yaml.safe_load`: `null` is Python `None`,
`map` is a Python `dict` (association list in insertion order, string keys —
the only kind of key the program's schemas and frontmatter use). -/
inductive Yaml where
  | null : Yaml
  | bool : Bool → Yaml
  | int : Int → Yaml
  | str : String → Yaml
  | list : List Yaml → Yaml
  | map : List (String × Yaml) → Yaml

/-- Python's `type(value).__name__` for the values of `Yaml`. -/
def pyTypeName : Yaml → String
  | .null => "NoneType"
  | .bool _ => "bool"
  | .int _ => "int"
  | .str _ => "str"
  | .list _ => "list"
  | .map _ => "dict"

/-- Python's `value is None` identity test. -/
def Yaml.isNull : Yaml → Bool
  | .null => true
  | _ => false

/-- Whether the value is a Python `dict`. -/
def Yaml.isMap : Yaml → Bool
  | .map _ => true
  | _ => false

/-- Whether the value is a Python `str` (`isinstance(value, str)`). -/
def Yaml.isStr : Yaml → Bool
  | .str _ => true
  | _ => false

/-- Python `==` between a string and an arbitrary value: only another equal
string compares equal (`"a" == 1`, `"a" == [..]`, … are all `False`). -/
def pyEqStr (s : String) : Yaml → Bool
  | .str t => s = t
  | _ => false

/-- Python `==` restricted to hashable scalar values (`None`, `bool`, `int`,
`str`) — the only values the program uses as `Counter` keys.  Python treats
`True == 1` and `False == 0` as equal numbers. -/
def pyEqScalar : Yaml → Yaml → Bool
  | .null, .null => true
  | .bool a, .bool b => a = b
  | .bool a, .int n => (if a then (1 : Int) else 0) = n
  | .int n, .bool b => n = (if b then (1 : Int) else 0)
  | .int a, .int b => a = b
  | .str a, .str b => a = b
  | _, _ => false

/-- Python hashability: lists and dicts are unhashable. -/
def Yaml.isHashable : Yaml → Bool
  | .list _ => false
  | .map _ => false
  | _ => true

/-- Result of running a piece of Python code: `.error` carries the message of
the exception that propagated. -/
abbrev PyResult (α : Type) := Except String α

/-! ## Python string primitives -/

/-- Python `text.startswith(pre)`. -/
def pyStartsWith (text pre : String) : Bool :=
  pre.data.isPrefixOf text.data

/-- Index of the first occurrence of `sep` in `s`, if any. -/
def findSub (sep : List Char) : List Char → Option Nat
  | [] => if sep.isEmpty then some 0 else none
  | c :: cs =>
    if sep.isPrefixOf (c :: cs) then some 0
    else (findSub sep cs).map (· + 1)

/-- Python `s.split(sep, maxsplit)` on character lists: split on the leftmost
occurrences of `sep`, at most `maxsplit` times. -/
def pySplitChars (sep : List Char) : Nat → List Char → List (List Char)
  | 0, s => [s]
  | maxsplit + 1, s =>
    match findSub sep s with
    | none => [s]
    | some i => s.take i :: pySplitChars sep maxsplit (s.drop (i + sep.length))

/-- Python `text.split(sep, maxsplit)`. -/
def pySplit (text sep : String) (maxsplit : Nat) : List String :=
  (pySplitChars sep.data maxsplit text.data).map fun cs => ⟨cs⟩

/-- Python's whitespace class `\s` (ASCII part; the documents are ASCII). -/
def isPySpace (c : Char) : Bool :=
  c = ' ' || c = '\t' || c = '\n' || c = '\r' || c = '\x0b' || c = '\x0c'

/-- Python `s.strip()` on character lists. -/
def pyStripChars (cs : List Char) : List Char :=
  ((cs.dropWhile isPySpace).reverse.dropWhile isPySpace).reverse

/-- Python `"x" in s` substring test. -/
def isSubstring (needle : List Char) : List Char → Bool
  | [] => needle.isEmpty
  | c :: cs => needle.isPrefixOf (c :: cs) || isSubstring needle cs

/-! ## The word counter (`indexer.extract_essay_data`, lines 33–38) -/

/-- The characters removed by `re.sub(r"[#*_`\[\]()>|]", " ", body)`. -/
def isMdChar (c : Char) : Bool :=
  c = '#' || c = '*' || c = '_' || c = '`' || c = '[' || c = ']' ||
  c = '(' || c = ')' || c = '>' || c = '|'

/-- Replace every markdown-structural character by a single space. -/
def stripMdChars (cs : List Char) : List Char :=
  cs.map fun c => if isMdChar c then ' ' else c

/-- Length of the match of `https?://\S+` anchored at the start of `cs`, if
any: the literal scheme followed by at least one non-whitespace character,
matched greedily. -/
def urlMatchLen (cs : List Char) : Option Nat :=
  if "https://".data.isPrefixOf cs then
    let t := (cs.drop 8).takeWhile fun c => !isPySpace c
    if t.isEmpty then none else some (8 + t.length)
  else if "http://".data.isPrefixOf cs then
    let t := (cs.drop 7).takeWhile fun c => !isPySpace c
    if t.isEmpty then none else some (7 + t.length)
  else none

/-- `re.sub(r"https?://\S+", "", clean)`: drop every match, scanning left to
right.  The fuel argument (always instantiated with the length of the list,
which bounds the number of steps since every step consumes at least one
character) keeps the recursion structural. -/
def removeUrlsAux : Nat → List Char → List Char
  | 0, cs => cs
  | _ + 1, [] => []
  | fuel + 1, c :: rest =>
    match urlMatchLen (c :: rest) with
    | some n => removeUrlsAux fuel (rest.drop (n - 1))
    | none => c :: removeUrlsAux fuel rest

def removeUrls (cs : List Char) : List Char :=
  removeUrlsAux cs.length cs

/-- `re.sub(r"\s+", " ", clean)`: collapse whitespace runs to single spaces
(same structural-fuel device as `removeUrlsAux`). -/
def collapseWsAux : Nat → List Char → List Char
  | 0, cs => cs
  | _ + 1, [] => []
  | fuel + 1, c :: rest =>
    if isPySpace c then ' ' :: collapseWsAux fuel (rest.dropWhile isPySpace)
    else c :: collapseWsAux fuel rest

def collapseWs (cs : List Char) : List Char :=
  collapseWsAux cs.length cs

/-- Python `s.split()`: the maximal whitespace-free runs of `s`. -/
def pyFieldsAux : Nat → List Char → List (List Char)
  | 0, _ => []
  | _ + 1, [] => []
  | fuel + 1, c :: rest =>
    if isPySpace c then pyFieldsAux fuel rest
    else
      let tok := (c :: rest).takeWhile fun d => !isPySpace d
      tok :: pyFieldsAux fuel ((c :: rest).dropWhile fun d => !isPySpace d)

def pyFields (cs : List Char) : List (List Char) :=
  pyFieldsAux cs.length cs

/-- The body word count of `extract_essay_data`: strip markdown characters,
remove URLs, collapse whitespace, strip, and count the resulting
whitespace-separated tokens (`len(clean.split()) if clean else 0`). -/
def wordCount (body : List Char) : Nat :=
  let clean := stripMdChars body
  let clean := removeUrls clean
  let clean := pyStripChars (collapseWs clean)
  if clean.isEmpty then 0 else (pyFields clean).length

/-! ## Python dict / container operations used by the program -/

/-- Python `fm.get(key, default)`: succeeds only on a `dict`, every other
value raises `AttributeError`. -/
def pyGet (fm : Yaml) (key : String) (default : Yaml) : PyResult Yaml :=
  match fm with
  | .map kvs => .ok ((kvs.lookup key).getD default)
  | v => .error ("AttributeError: '" ++ pyTypeName v ++ "' object has no attribute 'get'")

/-- Python `key in container` for a string `key`: key test on a `dict`,
membership on a `list`, substring test on a `str`, `TypeError` otherwise. -/
def pyContains (container : Yaml) (key : String) : PyResult Bool :=
  match container with
  | .map kvs => .ok (kvs.any fun p => p.1 = key)
  | .list xs => .ok (xs.any fun v => pyEqStr key v)
  | .str s => .ok (isSubstring key.data s.data)
  | v => .error ("TypeError: argument of type '" ++ pyTypeName v ++ "' is not iterable")

/-- Python `container[key]` for a string `key`. -/
def pySubscript (container : Yaml) (key : String) : PyResult Yaml :=
  match container with
  | .map kvs =>
    match kvs.lookup key with
    | some v => .ok v
    | none => .error ("KeyError: '" ++ key ++ "'")
  | .str _ => .error "TypeError: string indices must be integers"
  | .list _ => .error "TypeError: list indices must be integers or slices, not str"
  | v => .error ("TypeError: '" ++ pyTypeName v ++ "' object is not subscriptable")

/-- Python `for x in value`: elements of a `list`, one-character strings of a
`str`, keys of a `dict`; other values raise `TypeError`. -/
def pyIter : Yaml → PyResult (List Yaml)
  | .list xs => .ok xs
  | .str s => .ok (s.data.map fun c => .str ⟨[c]⟩)
  | .map kvs => .ok (kvs.map fun p => .str p.1)
  | v => .error ("TypeError: '" ++ pyTypeName v ++ "' object is not iterable")

/-! ## Frontmatter extraction

`validator.extract_frontmatter` (validator.py lines 19–33) and the extraction
part of `indexer.extract_essay_data` (indexer.py lines 20–44).  Both are
parameterised by the external parser `yaml.safe_load`, modelled as
`parse : String → Option Yaml` where `none` means a raised `YAMLError`
(which both callers catch) and `some v` the parsed value — possibly
`Yaml.null`, i.e. Python `None`. -/

/-- `validator.extract_frontmatter`.  The Python function returns `None`
when the text does not start with `---`, when no closing delimiter is found,
or on a parse error; since the parsed value itself can be `None`, the result
is a single `Yaml` value where `Yaml.null` is Python's `None`. -/
def extract_frontmatter (parse : String → Option Yaml) (text : String) : Yaml :=
  if !pyStartsWith text "---" then .null
  else
    let parts := pySplit text "---" 2
    if parts.length < 3 then .null
    else
      match parse (parts.getD 1 "") with
      | none => .null
      | some v => v

/-- The record returned by `indexer.extract_essay_data`. -/
structure EssayData where
  filename : String
  frontmatter : Yaml
  computed_word_count : Nat

/-- `indexer.extract_essay_data`: same delimiter handling as
`extract_frontmatter`, but on success it packages the parsed value (whatever
it is — including `None`) together with the body word count. -/
def extract_essay_data (parse : String → Option Yaml) (filename : String)
    (text : String) : Option EssayData :=
  if !pyStartsWith text "---" then none
  else
    let parts := pySplit text "---" 2
    if parts.length < 3 then none
    else
      match parse (parts.getD 1 "") with
      | none => none
      | some fm =>
        let body := pyStripChars (parts.getD 2 "").data
        some { filename := filename
               frontmatter := fm
               computed_word_count := wordCount body }

/-! ## The field validator (`validator.validate_field`, lines 36–77) -/

/-- Python `repr` of a value, as used by the f-string `{spec['enum']}`. -/
def pyRepr : Yaml → String
  | .null => "None"
  | .bool true => "True"
  | .bool false => "False"
  | .int n => toString n
  | .str s => "'" ++ s ++ "'"
  | .list xs => "[" ++ String.intercalate ", " (xs.attach.map fun x => pyRepr x.1) ++ "]"
  | .map kvs =>
    "\x7b" ++ String.intercalate ", "
      (kvs.attach.map fun p => "'" ++ p.1.1 ++ "': " ++ pyRepr p.1.2) ++ "\x7d"
decreasing_by
  · have h := List.sizeOf_lt_of_mem x.2
    simp only [Yaml.list.sizeOf_spec]
    omega
  · have h := List.sizeOf_lt_of_mem p.2
    have h2 : sizeOf p.1.2 < sizeOf p.1 := by
      obtain ⟨⟨a, b⟩, hp⟩ := p
      simp only [Prod.mk.sizeOf_spec]
      omega
    simp only [Yaml.map.sizeOf_spec]
    omega

/-- A field specification, the `spec` dict consumed by `validate_field`: one
optional entry per key the function reads (`"min" in spec` etc. are presence
tests, encoded by `Option`). -/
structure FieldSpec where
  type : Option String := none
  enum : Option (List Yaml) := none
  min_length : Option Nat := none
  max_length : Option Nat := none
  pattern : Option String := none
  min : Option Int := none
  min_items : Option Nat := none
  max_items : Option Nat := none
  item_type : Option String := none
  item_pattern : Option String := none

/-- The per-item checks of the `list` branch (`for i, item in enumerate(value)`).
`rm pattern s` models `re.match(pattern, s)` being truthy. -/
def listItemErrors (rm : String → String → Bool) (spec : FieldSpec)
    (xs : List Yaml) : List String :=
  (xs.enum.map fun p =>
    match p.2 with
    | .str s =>
      match spec.item_pattern with
      | some pat =>
        if pat ≠ "" && !rm pat s then
          ["item [" ++ toString p.1 ++ "] '" ++ s ++ "' does not match pattern " ++ pat]
        else []
      | none => []
    | v =>
      if spec.item_type = some "string" then
        ["item [" ++ toString p.1 ++ "] expected string, got " ++ pyTypeName v]
      else []).flatten

/-- `validator.validate_field`: dispatch on `spec.get("type")`; a type
mismatch returns immediately with a single message, otherwise the present
constraints are checked cumulatively, in source order. -/
def validate_field (rm : String → String → Bool) (_field_name : String)
    (value : Yaml) (spec : FieldSpec) : List String :=
  match spec.type with
  | some "string" =>
    match value with
    | .str s =>
      (match spec.enum with
       | some es =>
         if !es.any (fun v => pyEqStr s v) then
           ["must be one of " ++ pyRepr (.list es) ++ ", got '" ++ s ++ "'"]
         else []
       | none => []) ++
      (match spec.min_length with
       | some m =>
         if s.length < m then
           ["too short (" ++ toString s.length ++ " chars, min " ++ toString m ++ ")"]
         else []
       | none => []) ++
      (match spec.max_length with
       | some m =>
         if s.length > m then
           ["too long (" ++ toString s.length ++ " chars, max " ++ toString m ++ ")"]
         else []
       | none => []) ++
      (match spec.pattern with
       | some pat =>
         if !rm pat s then ["does not match pattern " ++ pat] else []
       | none => [])
    | v => ["expected string, got " ++ pyTypeName v]
  | some "integer" =>
    match value with
    | .int n =>
      (match spec.min with
       | some m =>
         if n < m then
           ["value " ++ toString n ++ " below minimum " ++ toString m]
         else []
       | none => [])
    | v => ["expected integer, got " ++ pyTypeName v]
  | some "list" =>
    match value with
    | .list xs =>
      (match spec.min_items with
       | some m =>
         if xs.length < m then
           ["too few items (" ++ toString xs.length ++ ", min " ++ toString m ++ ")"]
         else []
       | none => []) ++
      (match spec.max_items with
       | some m =>
         if xs.length > m then
           ["too many items (" ++ toString xs.length ++ ", max " ++ toString m ++ ")"]
         else []
       | none => []) ++
      listItemErrors rm spec xs
    | v => ["expected list, got " ++ pyTypeName v]
  | _ => []

/-! ## The document validator (`validator.validate_essay`, `validate_all`) -/

/-- The loaded schema: `schema["required_fields"]`, a dict from field name to
specification, iterated in insertion order. -/
structure Schema where
  required_fields : List (String × FieldSpec)

/-- `validator.validate_essay` on a document given as `(filename, text)`:
extraction failure yields the single "no valid frontmatter found" error;
otherwise each required field is checked (`field_name not in fm` and
`fm[field_name]` are the Python operations, which raise `TypeError` on
non-container frontmatter values). -/
def validate_essay (parse : String → Option Yaml) (rm : String → String → Bool)
    (filename text : String) (schema : Schema) : PyResult (List String) := do
  let fm := extract_frontmatter parse text
  if fm.isNull then
    return [filename ++ ": no valid frontmatter found"]
  schema.required_fields.foldlM
    (fun errors fs => do
      let present ← pyContains fm fs.1
      if !present then
        pure (errors ++ [filename ++ ": missing required field '" ++ fs.1 ++ "'"])
      else
        let v ← pySubscript fm fs.1
        pure (errors ++ (validate_field rm fs.1 v fs.2).map
          fun err => filename ++ ": field '" ++ fs.1 ++ "' — " ++ err))
    ([] : List String)

/-- `validator.validate_all` on the already-globbed, sorted list of
`(filename, text)` documents: an empty corpus yields the single "No .md files
found" error, otherwise per-document error lists are concatenated in order. -/
def validate_all (parse : String → Option Yaml) (rm : String → String → Bool)
    (posts_dir : String) (docs : List (String × String)) (schema : Schema) :
    PyResult (List String) :=
  if docs.isEmpty then .ok ["No .md files found in " ++ posts_dir]
  else
    docs.foldlM
      (fun acc d => do
        let errs ← validate_essay parse rm d.1 d.2 schema
        pure (acc ++ errs))
      ([] : List String)

/-! ## `collections.Counter` and `sorted`

A `Counter` is modelled as an association list in insertion order (Python
dicts preserve insertion order; updating an existing key keeps its
position).  Only hashable keys may be counted — `Counter[k] += 1` on a list
or dict key raises `TypeError`. -/

/-- `Counter[k] += 1` for a hashable key: bump the (unique) binding whose
key compares equal to `k`, or append a fresh binding at the end (dicts
preserve insertion order; an update keeps the original key object and
position). -/
def counterAdd : List (Yaml × Nat) → Yaml → List (Yaml × Nat)
  | [], k => [(k, 1)]
  | p :: ps, k =>
    if pyEqScalar p.1 k then (p.1, p.2 + 1) :: ps
    else p :: counterAdd ps k

/-- `Counter[k] += 1` including the hashability check. -/
def counterIncr (m : List (Yaml × Nat)) (k : Yaml) : PyResult (List (Yaml × Nat)) :=
  if k.isHashable then .ok (counterAdd m k)
  else .error ("TypeError: unhashable type: '" ++ pyTypeName k ++ "'")

/-- Stable insertion step for `sorted(..., key=lambda x: -x[1])`: `x` (which
precedes every element of the accumulator in the input) is placed before the
first element whose count is not larger — descending order, ties broken by
input (= first-occurrence) order. -/
def insertDesc (x : Yaml × Nat) : List (Yaml × Nat) → List (Yaml × Nat)
  | [] => [x]
  | y :: ys => if y.2 ≤ x.2 then x :: y :: ys else y :: insertDesc x ys

/-- `sorted(counter.items(), key=lambda x: -x[1])`: a stable descending sort
by count (the key function compares plain integers, so no `TypeError` can
arise here). -/
def pySortDesc (l : List (Yaml × Nat)) : List (Yaml × Nat) :=
  l.foldr insertDesc []

/-- Python `<` between two values, as invoked by `sorted` on the calendar's
`(date, count)` items: strings compare lexicographically by code point,
integers numerically, anything else raises `TypeError`. -/
def pyLtYaml : Yaml → Yaml → PyResult Bool
  | .str a, .str b => .ok (decide (a < b))
  | .int a, .int b => .ok (decide (a < b))
  | a, b =>
    .error ("TypeError: '<' not supported between instances of '" ++
      pyTypeName a ++ "' and '" ++ pyTypeName b ++ "'")

/-- Python `<` on the `(key, count)` tuples of `by_date.items()`: tuples
compare the first unequal component (`==` first, then `<`). -/
def pyLtPair (p q : Yaml × Nat) : PyResult Bool :=
  if pyEqScalar p.1 q.1 then .ok (decide (p.2 < q.2))
  else pyLtYaml p.1 q.1

/-- Stable insertion step for `sorted(by_date.items())` (ascending): `x`
precedes `y` unless `y < x`. -/
def insertAscM (x : Yaml × Nat) : List (Yaml × Nat) → PyResult (List (Yaml × Nat))
  | [] => .ok [x]
  | y :: ys => do
    let b ← pyLtPair y x
    if b then
      let rest ← insertAscM x ys
      pure (y :: rest)
    else pure (x :: y :: ys)

/-- `sorted(by_date.items())`: stable ascending sort; raises `TypeError` when
two keys are incomparable. -/
def pySortAscM (l : List (Yaml × Nat)) : PyResult (List (Yaml × Nat)) :=
  l.foldrM insertAscM []

/-! ## The aggregator (`indexer.build_*`, `index_all`) -/

/-- A per-document entry of `essays-index.json`. -/
structure Entry where
  filename : String
  title : Yaml
  date : Yaml
  category : Yaml
  tags : Yaml
  word_count : Nat
  reading_time : Yaml
  portfolio_relevance : Yaml

/-- The `essays-index.json` structure built by `build_essays_index`. -/
structure EssaysIndex where
  version : String
  updated : String
  generated_by : String
  total_essays : Nat
  total_words : Nat
  categories : List (Yaml × Nat)
  tag_frequency : List (Yaml × Nat)
  essays : List Entry

/-- The body of `build_essays_index`'s `for e in essays` loop, as one step
over the accumulator (category counter, tag counter, total words, entries). -/
def essaysIndexStep
    (acc : List (Yaml × Nat) × List (Yaml × Nat) × Nat × List Entry)
    (e : EssayData) :
    PyResult (List (Yaml × Nat) × List (Yaml × Nat) × Nat × List Entry) := do
  let fm := e.frontmatter
  let cat ← pyGet fm "category" (.str "uncategorized")
  let cats ← counterIncr acc.1 cat
  let tagsVal ← pyGet fm "tags" (.list [])
  let tagItems ← pyIter tagsVal
  let tags ← tagItems.foldlM counterIncr acc.2.1
  let wc := e.computed_word_count
  let title ← pyGet fm "title" (.str "")
  let date ← pyGet fm "date" (.str "")
  let reading_time ← pyGet fm "reading_time" (.str "")
  let portfolio_relevance ← pyGet fm "portfolio_relevance" (.str "")
  pure (cats, tags, acc.2.2.1 + wc,
    acc.2.2.2 ++ [{ filename := e.filename, title, date, category := cat,
                    tags := tagsVal, word_count := wc, reading_time,
                    portfolio_relevance : Entry }])

/-- `indexer.build_essays_index` (lines 47–82): one pass over the essays
accumulating the category counter, the tag counter, the summed word count
and the per-document entries; the counters are emitted sorted by descending
count. -/
def build_essays_index (today : String) (essays : List EssayData) :
    PyResult EssaysIndex := do
  let acc ← essays.foldlM essaysIndexStep
    (([] : List (Yaml × Nat)), ([] : List (Yaml × Nat)), (0 : Nat), ([] : List Entry))
  pure { version := "1.1"
         updated := today
         generated_by := "essay-pipeline indexer v0.1.0"
         total_essays := essays.length
         total_words := acc.2.2.1
         categories := pySortDesc acc.1
         tag_frequency := pySortDesc acc.2.1
         essays := acc.2.2.2 }

/-- An entry of `cross-references.json`. -/
structure XrefEntry where
  title : Yaml
  related_repos : Yaml
  tags : Yaml
  category : Yaml

/-- The `cross-references.json` structure. -/
structure CrossRefs where
  version : String
  updated : String
  total : Nat
  entries : List (String × XrefEntry)

/-- Python `refs[filename] = value` on a dict: replace in place if the key is
present, append otherwise. -/
def pyDictInsert (m : List (String × XrefEntry)) (k : String) (v : XrefEntry) :
    List (String × XrefEntry) :=
  if m.any (fun p => p.1 = k) then
    m.map fun p => if p.1 = k then (p.1, v) else p
  else m ++ [(k, v)]

/-- The body of `build_cross_references`'s loop. -/
def crossRefsStep (refs : List (String × XrefEntry)) (e : EssayData) :
    PyResult (List (String × XrefEntry)) := do
  let fm := e.frontmatter
  let title ← pyGet fm "title" (.str "")
  let related_repos ← pyGet fm "related_repos" (.list [])
  let tags ← pyGet fm "tags" (.list [])
  let category ← pyGet fm "category" (.str "")
  pure (pyDictInsert refs e.filename
    { title, related_repos, tags, category })

/-- `indexer.build_cross_references` (lines 85–101). -/
def build_cross_references (today : String) (essays : List EssayData) :
    PyResult CrossRefs := do
  let refs ← essays.foldlM crossRefsStep ([] : List (String × XrefEntry))
  pure { version := "1.1", updated := today, total := refs.length, entries := refs }

/-- The `publication-calendar.json` structure. -/
structure Calendar where
  version : String
  updated : String
  total_essays : Nat
  dates : List (Yaml × Nat)

/-- The body of `build_publication_calendar`'s loop. -/
def calendarStep (acc : List (Yaml × Nat)) (e : EssayData) :
    PyResult (List (Yaml × Nat)) := do
  let d ← pyGet e.frontmatter "date" (.str "unknown")
  counterIncr acc d

/-- `indexer.build_publication_calendar` (lines 104–116): count essays per
`date` value (default the literal string `"unknown"`), emitted sorted
ascending. -/
def build_publication_calendar (today : String) (essays : List EssayData) :
    PyResult Calendar := do
  let by_date ← essays.foldlM calendarStep ([] : List (Yaml × Nat))
  let dates ← pySortAscM by_date
  pure { version := "1.1", updated := today, total_essays := essays.length, dates }

/-- The summary dict returned by `index_all`. -/
structure Summary where
  essays : Nat
  categories : Nat
  total_words : Nat

/-- `indexer.index_all` on the already-globbed, sorted `(filename, text)`
list: documents whose extraction fails are silently skipped, then the three
index structures are built from the surviving essays.  The file writes are
I/O glue outside the model; the value returned here is what gets written
plus the summary. -/
def index_all (parse : String → Option Yaml) (today : String)
    (docs : List (String × String)) :
    PyResult (EssaysIndex × CrossRefs × Calendar × Summary) := do
  let essays := docs.filterMap fun d => extract_essay_data parse d.1 d.2
  let index ← build_essays_index today essays
  let xrefs ← build_cross_references today essays
  let calendar ← build_publication_calendar today essays
  pure (index, xrefs, calendar,
    { essays := essays.length
      categories := index.categories.length
      total_words := index.total_words })

/-! ## A concrete model of `yaml.safe_load`

Used only for the concrete documents appearing in the theorems below; each
case records the value PyYAML's `yaml.safe_load` returns on that exact block
string (`none` = `YAMLError`).  An empty or whitespace-only block parses to
`None`; a bare scalar to that scalar; a single `key: value` line to a
one-entry dict; an unterminated `[` raises. -/
def yamlSafeLoad (s : String) : Option Yaml :=
  if s = "" || s = "\n" then some .null
  else if s = "\n5\n" then some (.int 5)
  else if s = "\ntitle: T\n" then some (.map [("title", .str "T")])
  else if s = "\ntitle: U\n" then some (.map [("title", .str "U")])
  else if s = "[" then none
  else none

/-! ## Extraction lemmas -/

/-- The three syntactic ways extraction can fail on `text`: no leading
delimiter, no closing delimiter (fewer than three split parts), or a parse
error on the delimited block. -/
def extractionFails (parse : String → Option Yaml) (text : String) : Prop :=
  pyStartsWith text "---" = false ∨
  (pySplit text "---" 2).length < 3 ∨
  parse ((pySplit text "---" 2).getD 1 "") = none

theorem extract_frontmatter_null_of_fails (parse : String → Option Yaml)
    (text : String) (h : extractionFails parse text) :
    extract_frontmatter parse text = .null := by
  unfold extract_frontmatter
  rcases h with h | h | h
  · simp [h]
  · by_cases hs : pyStartsWith text "---" <;> simp [hs, h]
  · simp only [List.getD_eq_getElem?_getD] at h
    by_cases hs : pyStartsWith text "---" <;>
      by_cases hl : (pySplit text "---" 2).length < 3 <;> simp [hs, hl, h]

theorem extract_essay_data_none_of_fails (parse : String → Option Yaml)
    (filename text : String) (h : extractionFails parse text) :
    extract_essay_data parse filename text = none := by
  unfold extract_essay_data
  rcases h with h | h | h
  · simp [h]
  · by_cases hs : pyStartsWith text "---" <;> simp [hs, h]
  · simp only [List.getD_eq_getElem?_getD] at h
    by_cases hs : pyStartsWith text "---" <;>
      by_cases hl : (pySplit text "---" 2).length < 3 <;> simp [hs, hl, h]

/-! ## Claims C4, C2, C3, C1 -/

/-- **C4**: for every document text (and every behaviour of the external
YAML parser), extraction returns the "no metadata" outcome — Python `None`
for `extract_frontmatter`, `none` for `extract_essay_data` — whenever the
text does not start with `---`, the split yields fewer than three parts, or
parsing the delimited block fails.  Both embedded functions are total (no
`PyResult`), which is the model-level statement that extraction never
raises: the only exception the Python code can meet here, `YAMLError`, is
caught. -/
theorem claim_C4_extraction_none_on_failure (parse : String → Option Yaml)
    (filename text : String) (h : extractionFails parse text) :
    extract_frontmatter parse text = Yaml.null ∧
    extract_essay_data parse filename text = none :=
  ⟨extract_frontmatter_null_of_fails parse text h,
   extract_essay_data_none_of_fails parse filename text h⟩

/-- Witness for C4 at the concrete document `"hello"` (no leading
delimiter). -/
theorem claim_C4_extraction_none_on_failure_witness :
    extractionFails yamlSafeLoad "hello" ∧
    (extract_frontmatter yamlSafeLoad "hello" = Yaml.null ∧
     extract_essay_data yamlSafeLoad "w.md" "hello" = none) := by
  have h : extractionFails yamlSafeLoad "hello" := Or.inl rfl
  exact ⟨h, claim_C4_extraction_none_on_failure yamlSafeLoad "w.md" "hello" h⟩

/-- **C2**: a document whose metadata block is malformed or absent
(extraction failure) is excluded from the corpus of every downstream
computation: removing it from the input of `index_all` changes nothing in
any of the three generated structures or the summary (in particular no error
is recorded for it), while `validate_essay` reports exactly the single
"no valid frontmatter found" error for it. -/
theorem claim_C2_extraction_failure_skipped (parse : String → Option Yaml)
    (rm : String → String → Bool) (today : String)
    (pre post : List (String × String)) (filename text : String)
    (schema : Schema) (h : extractionFails parse text) :
    index_all parse today (pre ++ (filename, text) :: post) =
      index_all parse today (pre ++ post) ∧
    validate_essay parse rm filename text schema =
      .ok [filename ++ ": no valid frontmatter found"] := by
  constructor
  · have he := extract_essay_data_none_of_fails parse filename text h
    unfold index_all
    simp [List.filterMap_append, List.filterMap_cons, he]
  · have hf := extract_frontmatter_null_of_fails parse text h
    unfold validate_essay
    rw [hf]
    rfl

/-- Witness for C2 at the concrete corpus `[bad, good]` where the bad
document has no closing delimiter. -/
theorem claim_C2_extraction_failure_skipped_witness :
    extractionFails yamlSafeLoad "---\nbroken" ∧
    (index_all yamlSafeLoad "2026-10-12"
        [("a.md", "---\nbroken"), ("b.md", "---\ntitle: T\n---\nbody")] =
      index_all yamlSafeLoad "2026-10-12" [("b.md", "---\ntitle: T\n---\nbody")] ∧
     validate_essay yamlSafeLoad (fun _ _ => true) "a.md" "---\nbroken"
        ⟨[("title", { type := some "string" })]⟩ =
      .ok ["a.md: no valid frontmatter found"]) := by
  have h : extractionFails yamlSafeLoad "---\nbroken" := Or.inr (Or.inl (by decide))
  exact ⟨h,
    claim_C2_extraction_failure_skipped yamlSafeLoad (fun _ _ => true) "2026-10-12"
      [] [("b.md", "---\ntitle: T\n---\nbody")] "a.md" "---\nbroken"
      ⟨[("title", { type := some "string" })]⟩ h⟩

/-- **C3** fails on the code: on a document whose delimited block parses to
YAML `null` (here `"---\n---\nhello"`, whose block is the single newline),
the validator's `extract_frontmatter` returns Python `None` — the extraction
-failure outcome its caller acts on — while the indexer's
`extract_essay_data` succeeds and produces a record (with `None`
frontmatter).  So the two implementations do not compute the same
function. -/
theorem claim_C3_counterexample :
    extract_frontmatter yamlSafeLoad "---\n---\nhello" = Yaml.null ∧
    extract_essay_data yamlSafeLoad "a.md" "---\n---\nhello" =
      some { filename := "a.md", frontmatter := Yaml.null,
             computed_word_count := 1 } ∧
    (extract_essay_data yamlSafeLoad "a.md" "---\n---\nhello").isSome = true :=
  ⟨rfl, rfl, rfl⟩

/-- **C3 amended**: the two extraction implementations agree except on the
classification of a block parsing to YAML `null`: whenever
`extract_essay_data` fails, `extract_frontmatter` returns `None`, and
whenever `extract_essay_data` succeeds, `extract_frontmatter` returns
exactly the metadata value of the produced record — so the only divergence
is that a `null` metadata record is reported as extraction failure by the
validator (its `None` return being indistinguishable from failure) but as a
successful record by the indexer. -/
theorem claim_C3_amended_extraction_agreement (parse : String → Option Yaml)
    (filename text : String) :
    (extract_essay_data parse filename text).elim
      (extract_frontmatter parse text = Yaml.null)
      (fun e => extract_frontmatter parse text = e.frontmatter) := by
  unfold extract_essay_data extract_frontmatter
  by_cases hs : pyStartsWith text "---"
  · by_cases hl : (pySplit text "---" 2).length < 3
    · simp [hs, hl]
    · simp only [hs, hl, Bool.not_true, if_false, if_true, Bool.false_eq_true,
        ite_false, ite_true]
      cases hp : parse ((pySplit text "---" 2).getD 1 "") <;> simp [hp]
  · simp [hs]

/-- **C1** is violated by the code (code bug): on a document whose metadata
block parses to a scalar (`5`), `validate_essay` evaluates
`field_name not in fm` on an `int` and raises
`TypeError: argument of type 'int' is not iterable`; `validate_all`
propagates the exception, so the rest of the corpus (here the perfectly
valid `b.md`, which on its own validates with zero errors) is never
processed — extraction "failure" of this unexpected shape does abort the
corpus, contradicting the claim and the spec's requirement that validation
errors accumulate and processing continues. -/
theorem claim_C1_scalar_frontmatter_raises :
    validate_all yamlSafeLoad (fun _ _ => true) "_posts"
      [("a.md", "---\n5\n---\nbody"), ("b.md", "---\ntitle: T\n---\nbody")]
      ⟨[("title", { type := some "string" })]⟩ =
    .error "TypeError: argument of type 'int' is not iterable" ∧
    validate_essay yamlSafeLoad (fun _ _ => true) "b.md" "---\ntitle: T\n---\nbody"
      ⟨[("title", { type := some "string" })]⟩ = .ok [] :=
  ⟨rfl, rfl⟩

/-! ## Claims C5, C6, C10 -/

/-- **C5**: for every field specification of type `integer` and every
boolean value, `validate_field` returns exactly the single error
`"expected integer, got bool"` — the boolean is rejected as a type mismatch
(Python's `isinstance(value, bool)` exclusion) and the early `return` means
the minimum check is never performed on it. -/
theorem claim_C5_integer_rejects_bool (rm : String → String → Bool)
    (field_name : String) (spec : FieldSpec) (b : Bool)
    (h : spec.type = some "integer") :
    validate_field rm field_name (.bool b) spec =
      ["expected integer, got bool"] := by
  unfold validate_field
  rw [h]
  rfl

/-- Witness for C5: a spec with a `min` bound still yields only the type
error on `True`. -/
theorem claim_C5_integer_rejects_bool_witness :
    ({ type := some "integer", min := some 500 : FieldSpec }).type =
      some "integer" ∧
    validate_field (fun _ _ => true) "word_count" (.bool true)
      { type := some "integer", min := some 500 } =
      ["expected integer, got bool"] :=
  ⟨rfl, claim_C5_integer_rejects_bool (fun _ _ => true) "word_count"
    { type := some "integer", min := some 500 } true rfl⟩

/-- **C6**: every bound comparison of `validate_field` is inclusive.  A
value sitting exactly on a declared bound behaves exactly as if that bound
were absent from the specification: a string of length `min_length` (or
`max_length`), an integer equal to `min`, and a list of length `min_items`
(or `max_items`) produce no violation for that constraint, whatever the
other constraints of the specification say. -/
theorem claim_C6_bounds_inclusive :
    (∀ (rm : String → String → Bool) (fn : String) (spec : FieldSpec) (s : String),
       spec.min_length = some s.length →
       validate_field rm fn (.str s) spec =
         validate_field rm fn (.str s) { spec with min_length := none }) ∧
    (∀ (rm : String → String → Bool) (fn : String) (spec : FieldSpec) (s : String),
       spec.max_length = some s.length →
       validate_field rm fn (.str s) spec =
         validate_field rm fn (.str s) { spec with max_length := none }) ∧
    (∀ (rm : String → String → Bool) (fn : String) (spec : FieldSpec) (n : Int),
       spec.min = some n →
       validate_field rm fn (.int n) spec =
         validate_field rm fn (.int n) { spec with min := none }) ∧
    (∀ (rm : String → String → Bool) (fn : String) (spec : FieldSpec) (xs : List Yaml),
       spec.min_items = some xs.length →
       validate_field rm fn (.list xs) spec =
         validate_field rm fn (.list xs) { spec with min_items := none }) ∧
    (∀ (rm : String → String → Bool) (fn : String) (spec : FieldSpec) (xs : List Yaml),
       spec.max_items = some xs.length →
       validate_field rm fn (.list xs) spec =
         validate_field rm fn (.list xs) { spec with max_items := none }) := by
  refine ⟨?_, ?_, ?_, ?_, ?_⟩ <;>
    · intro rm fn spec v h
      obtain ⟨ty, en, minl, maxl, pat, mn, mini, maxi, it, ip⟩ := spec
      cases h
      unfold validate_field
      simp [listItemErrors, lt_irrefl]

/-- Witness for C6: concrete specs with the value exactly on each bound. -/
theorem claim_C6_bounds_inclusive_witness :
    (({ type := some "string", min_length := some 2 : FieldSpec }).min_length =
       some ("ab".length) ∧
     validate_field (fun _ _ => true) "f" (.str "ab")
         { type := some "string", min_length := some 2 } =
       validate_field (fun _ _ => true) "f" (.str "ab")
         { type := some "string", min_length := none }) ∧
    (validate_field (fun _ _ => true) "f" (.str "ab")
         { type := some "string", max_length := some 2 } =
       validate_field (fun _ _ => true) "f" (.str "ab")
         { type := some "string", max_length := none }) ∧
    (validate_field (fun _ _ => true) "f" (.int 500)
         { type := some "integer", min := some 500 } =
       validate_field (fun _ _ => true) "f" (.int 500)
         { type := some "integer", min := none }) ∧
    (validate_field (fun _ _ => true) "f" (.list [.str "a", .str "b"])
         { type := some "list", min_items := some 2 } =
       validate_field (fun _ _ => true) "f" (.list [.str "a", .str "b"])
         { type := some "list", min_items := none }) ∧
    (validate_field (fun _ _ => true) "f" (.list [.str "a", .str "b"])
         { type := some "list", max_items := some 2 } =
       validate_field (fun _ _ => true) "f" (.list [.str "a", .str "b"])
         { type := some "list", max_items := none }) :=
  ⟨⟨rfl, claim_C6_bounds_inclusive.1 (fun _ _ => true) "f"
      { type := some "string", min_length := some 2 } "ab" rfl⟩,
   claim_C6_bounds_inclusive.2.1 (fun _ _ => true) "f"
      { type := some "string", max_length := some 2 } "ab" rfl,
   claim_C6_bounds_inclusive.2.2.1 (fun _ _ => true) "f"
      { type := some "integer", min := some 500 } 500 rfl,
   claim_C6_bounds_inclusive.2.2.2.1 (fun _ _ => true) "f"
      { type := some "list", min_items := some 2 } [.str "a", .str "b"] rfl,
   claim_C6_bounds_inclusive.2.2.2.2 (fun _ _ => true) "f"
      { type := some "list", max_items := some 2 } [.str "a", .str "b"] rfl⟩

/-- **C10**: on a corpus with zero input files, validation returns exactly
the one "No .md files found" error (a list of length one, distinct from the
empty list of the all-valid outcome), while indexing proceeds normally and
produces structures describing zero documents: `total_essays = 0` and empty
`categories` (the file write itself is I/O glue outside the model). -/
theorem claim_C10_empty_corpus (parse : String → Option Yaml)
    (rm : String → String → Bool) (posts_dir today : String) (schema : Schema) :
    validate_all parse rm posts_dir [] schema =
      .ok ["No .md files found in " ++ posts_dir] ∧
    (["No .md files found in " ++ posts_dir] : List String).length = 1 ∧
    ∃ out, index_all parse today [] = .ok out ∧
      out.1.total_essays = 0 ∧ out.1.categories = [] ∧
      out.2.2.2.essays = 0 :=
  ⟨rfl, rfl, ⟨_, rfl, rfl, rfl, rfl⟩⟩

/-! ## Vocabulary for the aggregator claims

Total counterparts of the monadic field accesses, exact on the well-shaped
essays the aggregator claims quantify over. -/

/-- `fm.get(key, default)` on a dict, total form. -/
def fmGetD (fm : Yaml) (key : String) (default : Yaml) : Yaml :=
  match fm with
  | .map kvs => (kvs.lookup key).getD default
  | _ => default

theorem pyGet_eq_fmGetD (fm : Yaml) (key : String) (d : Yaml)
    (h : fm.isMap = true) : pyGet fm key d = .ok (fmGetD fm key d) := by
  cases fm <;> (simp [Yaml.isMap] at h; try rfl)

/-- The category counted for an essay: `fm.get("category", "uncategorized")`. -/
def catOf (e : EssayData) : Yaml :=
  fmGetD e.frontmatter "category" (.str "uncategorized")

/-- The value iterated for tags: `fm.get("tags", [])`. -/
def tagsValOf (e : EssayData) : Yaml :=
  fmGetD e.frontmatter "tags" (.list [])

/-- The elements of the essay's tags list (exact when `tagsValOf` is a
list, the case the claims' hypotheses require). -/
def tagsOf (e : EssayData) : List Yaml :=
  match tagsValOf e with
  | .list xs => xs
  | _ => []

/-- The calendar key of an essay: `fm.get("date", "unknown")`. -/
def dateOf (e : EssayData) : Yaml :=
  fmGetD e.frontmatter "date" (.str "unknown")

/-- The sequence of counted categories, in corpus order. -/
def catSeq (essays : List EssayData) : List Yaml := essays.map catOf

/-- The sequence of counted tag occurrences, in corpus order. -/
def tagSeq (essays : List EssayData) : List Yaml := essays.flatMap tagsOf

/-- The sequence of counted dates, in corpus order. -/
def dateSeq (essays : List EssayData) : List Yaml := essays.map dateOf

/-- The counter obtained by folding `Counter[k] += 1` over a key sequence. -/
def counterOf (l : List Yaml) : List (Yaml × Nat) := l.foldl counterAdd []

/-- The total count mass of a frequency table. -/
def sumCounts (l : List (Yaml × Nat)) : Nat := (l.map fun p => p.2).sum

/-- A tags value the indexer can count: an actual list of hashable items. -/
def goodTags : Yaml → Bool
  | .list xs => xs.all Yaml.isHashable
  | _ => false

/-- The shape hypotheses under which an essay flows through
`build_essays_index` without raising: dict frontmatter, hashable category,
and a tags value that is a list of hashable items. -/
def goodEssay (e : EssayData) : Bool :=
  e.frontmatter.isMap && (catOf e).isHashable && goodTags (tagsValOf e)

/-- The entry built for one essay by `build_essays_index`, total form. -/
def entryOf (e : EssayData) : Entry :=
  { filename := e.filename
    title := fmGetD e.frontmatter "title" (.str "")
    date := fmGetD e.frontmatter "date" (.str "")
    category := catOf e
    tags := tagsValOf e
    word_count := e.computed_word_count
    reading_time := fmGetD e.frontmatter "reading_time" (.str "")
    portfolio_relevance := fmGetD e.frontmatter "portfolio_relevance" (.str "") }

/-! ## Scalar equality lemmas -/

theorem pyEqScalar_refl (x : Yaml) (h : x.isHashable = true) :
    pyEqScalar x x = true := by
  cases x <;> simp [pyEqScalar, Yaml.isHashable] at h ⊢

theorem pyEqScalar_symm (a b : Yaml) : pyEqScalar a b = pyEqScalar b a := by
  cases a <;> cases b <;> simp [pyEqScalar, eq_comm]

theorem pyEqScalar_trans {a b c : Yaml} (h1 : pyEqScalar a b = true)
    (h2 : pyEqScalar b c = true) : pyEqScalar a c = true := by
  cases a <;> cases b <;> cases c <;>
    simp [pyEqScalar] at h1 h2 ⊢ <;>
    subst_vars <;>
    first
    | rfl
    | omega
    | (split_ifs at * <;> simp_all)

/-! ## Counter lemmas -/

theorem sumCounts_counterAdd (m : List (Yaml × Nat)) (k : Yaml) :
    sumCounts (counterAdd m k) = sumCounts m + 1 := by
  induction m with
  | nil => simp [counterAdd, sumCounts]
  | cons p ps ih =>
    by_cases h : pyEqScalar p.1 k <;>
      simp [counterAdd, h, sumCounts] at ih ⊢ <;> omega

theorem sumCounts_foldl_counterAdd (l : List Yaml) (m : List (Yaml × Nat)) :
    sumCounts (l.foldl counterAdd m) = sumCounts m + l.length := by
  induction l generalizing m with
  | nil => simp
  | cons x xs ih =>
    rw [List.foldl_cons, ih, sumCounts_counterAdd]
    simp [List.length_cons]
    omega

theorem sumCounts_counterOf (l : List Yaml) :
    sumCounts (counterOf l) = l.length := by
  simpa [counterOf, sumCounts] using sumCounts_foldl_counterAdd l []

/-- Index of the first occurrence (under Python `==`) of key `k` in the key
sequence `l`. -/
def firstIdx (l : List Yaml) (k : Yaml) : Nat :=
  l.findIdx fun y => pyEqScalar y k

theorem findIdx_append_left {α} (p : α → Bool) (l1 l2 : List α)
    (h : l1.any p = true) : (l1 ++ l2).findIdx p = l1.findIdx p := by
  induction l1 with
  | nil => simp at h
  | cons a l ih =>
    by_cases ha : p a
    · simp [List.findIdx_cons, ha]
    · simp only [List.any_cons, ha, Bool.false_or] at h
      simp [List.findIdx_cons, ha, ih h]

theorem findIdx_append_right {α} (p : α → Bool) (l1 l2 : List α)
    (h : l1.any p = false) :
    (l1 ++ l2).findIdx p = l1.length + l2.findIdx p := by
  induction l1 with
  | nil => simp
  | cons a l ih =>
    simp only [List.any_cons, Bool.or_eq_false_iff] at h
    simp [List.findIdx_cons, h.1, ih h.2]
    omega

theorem findIdx_lt_length_of_any {α} (p : α → Bool) (l : List α)
    (h : l.any p = true) : l.findIdx p < l.length := by
  induction l with
  | nil => simp at h
  | cons a l ih =>
    by_cases ha : p a
    · simp [List.findIdx_cons, ha]
    · simp only [List.any_cons, ha, Bool.false_or] at h
      simp [List.findIdx_cons, ha]
      exact List.any_eq_true.mp h

theorem counterOf_append (l : List Yaml) (k : Yaml) :
    counterOf (l ++ [k]) = counterAdd (counterOf l) k := by
  simp [counterOf, List.foldl_append]

theorem counterAdd_of_no_match (m : List (Yaml × Nat)) (k : Yaml)
    (h : m.any (fun p => pyEqScalar p.1 k) = false) :
    counterAdd m k = m ++ [(k, 1)] := by
  induction m with
  | nil => rfl
  | cons p ps ih =>
    simp only [List.any_cons, Bool.or_eq_false_iff] at h
    simp [counterAdd, h.1, ih h.2]

theorem counterAdd_keys_of_match (m : List (Yaml × Nat)) (k : Yaml)
    (h : m.any (fun p => pyEqScalar p.1 k) = true) :
    (counterAdd m k).map (fun p => p.1) = m.map fun p => p.1 := by
  induction m with
  | nil => simp at h
  | cons p ps ih =>
    by_cases hp : pyEqScalar p.1 k
    · simp [counterAdd, hp]
    · simp only [List.any_cons, hp, Bool.false_or] at h
      simp [counterAdd, hp, ih h]

theorem counterAdd_keys_surj (m : List (Yaml × Nat)) (k : Yaml) :
    ∀ p ∈ m, ∃ p' ∈ counterAdd m k, p'.1 = p.1 := by
  induction m with
  | nil => simp
  | cons r ps ih =>
    intro p hp
    by_cases hr : pyEqScalar r.1 k
    · rcases List.mem_cons.mp hp with rfl | hp
      · exact ⟨(p.1, p.2 + 1), by simp [counterAdd, hr], rfl⟩
      · exact ⟨p, by simp [counterAdd, hr, hp], rfl⟩
    · rcases List.mem_cons.mp hp with rfl | hp
      · exact ⟨p, by simp [counterAdd, hr], rfl⟩
      · obtain ⟨p', hp', he⟩ := ih p hp
        exact ⟨p', by simp [counterAdd, hr, hp'], he⟩

theorem mem_counterAdd_elim (m : List (Yaml × Nat)) (k : Yaml)
    (hnd : m.Pairwise (fun p q => pyEqScalar p.1 q.1 = false))
    (hm : m.any (fun p => pyEqScalar p.1 k) = true) :
    ∀ p' ∈ counterAdd m k, ∃ p ∈ m, p'.1 = p.1 ∧
      p'.2 = (if pyEqScalar p.1 k = true then p.2 + 1 else p.2) := by
  induction m with
  | nil => simp at hm
  | cons r ps ih =>
    intro p' hp'
    obtain ⟨hr1, hr2⟩ := List.pairwise_cons.mp hnd
    by_cases hr : pyEqScalar r.1 k
    · simp [counterAdd, hr, List.mem_cons] at hp'
      rcases hp' with rfl | hp'
      · exact ⟨r, List.mem_cons_self r ps, rfl, by simp [hr]⟩
      · refine ⟨p', List.mem_cons_of_mem r hp', rfl, ?_⟩
        have hne : pyEqScalar p'.1 k = false := by
          by_contra hc
          rw [Bool.not_eq_false] at hc
          have : pyEqScalar r.1 p'.1 = true :=
            pyEqScalar_trans hr (by rw [pyEqScalar_symm]; exact hc)
          rw [hr1 p' hp'] at this
          exact Bool.false_ne_true this
        simp [hne]
    · simp [counterAdd, hr, List.mem_cons] at hp'
      rcases hp' with heq | hmem
      · exact ⟨r, List.mem_cons_self r ps, by rw [heq], by rw [heq]; simp [hr]⟩
      · simp only [List.any_cons, hr, Bool.false_or] at hm
        obtain ⟨p, hp, h1, h2⟩ := ih hr2 hm p' hmem
        exact ⟨p, List.mem_cons_of_mem r hp, h1, h2⟩

theorem pairwise_keys_transfer {m m' : List (Yaml × Nat)}
    (hkeys : m'.map (fun p => p.1) = m.map fun p => p.1)
    (S : Yaml → Yaml → Prop) (h : m.Pairwise fun p q => S p.1 q.1) :
    m'.Pairwise fun p q => S p.1 q.1 := by
  have h1 : (m.map fun p => p.1).Pairwise S := List.pairwise_map.mpr h
  rw [← hkeys] at h1
  exact List.pairwise_map.mp h1

/-- The five facts about a `Counter` built over a sequence of hashable keys:
stored keys occur in the sequence; counts are occurrence counts; every
element of the sequence is represented; keys are pairwise distinct; keys are
listed in first-occurrence order. -/
theorem counterOf_invariant (l : List Yaml)
    (hH : ∀ y ∈ l, y.isHashable = true) :
    (∀ p ∈ counterOf l, p.1 ∈ l) ∧
    (∀ p ∈ counterOf l, p.2 = l.countP fun y => pyEqScalar y p.1) ∧
    (∀ y ∈ l, ∃ p ∈ counterOf l, pyEqScalar p.1 y = true) ∧
    ((counterOf l).Pairwise fun p q => pyEqScalar p.1 q.1 = false) ∧
    ((counterOf l).Pairwise fun p q => firstIdx l p.1 < firstIdx l q.1) := by
  induction l using List.reverseRecOn with
  | nil => simp [counterOf]
  | append_singleton l k ih =>
    have hH' : ∀ y ∈ l, y.isHashable = true := fun y hy =>
      hH y (List.mem_append_left _ hy)
    have hk : k.isHashable = true :=
      hH k (List.mem_append_right _ (List.mem_singleton_self k))
    obtain ⟨I1, I2, I3, I4, I5⟩ := ih hH'
    rw [counterOf_append]
    by_cases hcase : (counterOf l).any (fun p => pyEqScalar p.1 k) = true
    · -- the key is already counted: the matching binding is bumped in place
      have hkeys := counterAdd_keys_of_match _ _ hcase
      have hI1' : ∀ p ∈ counterAdd (counterOf l) k, p.1 ∈ l := by
        intro p' hp'
        obtain ⟨p, hp, h1, _⟩ := mem_counterAdd_elim _ _ I4 hcase p' hp'
        rw [h1]; exact I1 p hp
      refine ⟨?_, ?_, ?_, ?_, ?_⟩
      · exact fun p hp => List.mem_append_left _ (hI1' p hp)
      · intro p' hp'
        obtain ⟨p, hp, h1, h2⟩ := mem_counterAdd_elim _ _ I4 hcase p' hp'
        rw [h1, h2, List.countP_append]
        by_cases hpk : pyEqScalar p.1 k = true
        · have hkp : pyEqScalar k p.1 = true := by
            rw [pyEqScalar_symm]; exact hpk
          simp [hpk, List.countP_cons, hkp, ← I2 p hp]
        · have hpk' : pyEqScalar p.1 k = false := Bool.not_eq_true _ |>.mp hpk
          have hkp : pyEqScalar k p.1 = false := by
            rw [pyEqScalar_symm]; exact hpk'
          simp [hpk', List.countP_cons, hkp, ← I2 p hp]
      · intro y hy
        rcases List.mem_append.mp hy with hy | hy
        · obtain ⟨p, hp, hpy⟩ := I3 y hy
          obtain ⟨p', hp', he⟩ := counterAdd_keys_surj (counterOf l) k p hp
          exact ⟨p', hp', by rw [he]; exact hpy⟩
        · rw [List.mem_singleton] at hy
          rw [hy]
          obtain ⟨p, hp, hpk⟩ := List.any_eq_true.mp hcase
          obtain ⟨p', hp', he⟩ := counterAdd_keys_surj (counterOf l) k p hp
          exact ⟨p', hp', by rw [he]; exact hpk⟩
      · exact pairwise_keys_transfer hkeys (fun a b => pyEqScalar a b = false) I4
      · have htrans :=
          pairwise_keys_transfer hkeys (fun a b => firstIdx l a < firstIdx l b) I5
        refine htrans.imp_of_mem ?_
        intro a b ha hb hab
        have ha' : l.any (fun y => pyEqScalar y a.1) = true :=
          List.any_eq_true.mpr
            ⟨a.1, hI1' a ha, pyEqScalar_refl _ (hH' _ (hI1' a ha))⟩
        have hb' : l.any (fun y => pyEqScalar y b.1) = true :=
          List.any_eq_true.mpr
            ⟨b.1, hI1' b hb, pyEqScalar_refl _ (hH' _ (hI1' b hb))⟩
        rw [firstIdx, firstIdx, findIdx_append_left _ _ _ ha',
          findIdx_append_left _ _ _ hb']
        exact hab
    · -- a fresh key: appended at the end with count `1`
      rw [Bool.not_eq_true] at hcase
      have hnomatch : ∀ p ∈ counterOf l, pyEqScalar p.1 k = false := by
        intro p hp
        by_contra hc
        rw [Bool.not_eq_false] at hc
        have : (counterOf l).any (fun p => pyEqScalar p.1 k) = true :=
          List.any_eq_true.mpr ⟨p, hp, hc⟩
        rw [hcase] at this
        exact Bool.false_ne_true this
      have hnoy : ∀ y ∈ l, pyEqScalar y k = false := by
        intro y hy
        by_contra hc
        rw [Bool.not_eq_false] at hc
        obtain ⟨p, hp, hpy⟩ := I3 y hy
        have := pyEqScalar_trans hpy hc
        rw [hnomatch p hp] at this
        exact Bool.false_ne_true this
      have hanyk : l.any (fun y => pyEqScalar y k) = false := by
        by_contra hc
        rw [Bool.not_eq_false] at hc
        obtain ⟨y, hy, hyk⟩ := List.any_eq_true.mp hc
        rw [hnoy y hy] at hyk
        exact Bool.false_ne_true hyk
      have hcount0 : l.countP (fun y => pyEqScalar y k) = 0 :=
        List.countP_eq_zero.mpr fun y hy => by simp [hnoy y hy]
      rw [counterAdd_of_no_match _ _ hcase]
      refine ⟨?_, ?_, ?_, ?_, ?_⟩
      · intro p hp
        rcases List.mem_append.mp hp with hp | hp
        · exact List.mem_append_left _ (I1 p hp)
        · rw [List.mem_singleton] at hp
          rw [hp]
          exact List.mem_append_right _ (List.mem_singleton_self k)
      · intro p hp
        rcases List.mem_append.mp hp with hp | hp
        · rw [List.countP_append]
          have h0 : List.countP (fun y => pyEqScalar y p.1) [k] = 0 := by
            have : pyEqScalar k p.1 = false := by
              rw [pyEqScalar_symm]; exact hnomatch p hp
            simp [List.countP_cons, this]
          rw [h0, Nat.add_zero]
          exact I2 p hp
        · rw [List.mem_singleton] at hp
          rw [hp, List.countP_append, hcount0]
          simp [List.countP_cons, pyEqScalar_refl k hk]
      · intro y hy
        rcases List.mem_append.mp hy with hy | hy
        · obtain ⟨p, hp, hpy⟩ := I3 y hy
          exact ⟨p, List.mem_append_left _ hp, hpy⟩
        · rw [List.mem_singleton] at hy
          rw [hy]
          exact ⟨(k, 1), List.mem_append_right _ (List.mem_singleton_self _),
            pyEqScalar_refl k hk⟩
      · rw [List.pairwise_append]
        refine ⟨I4, List.pairwise_singleton _ _, ?_⟩
        intro p hp q hq
        rw [List.mem_singleton] at hq
        rw [hq]
        exact hnomatch p hp
      · rw [List.pairwise_append]
        refine ⟨?_, List.pairwise_singleton _ _, ?_⟩
        · refine I5.imp_of_mem ?_
          intro a b ha hb hab
          have ha' : l.any (fun y => pyEqScalar y a.1) = true :=
            List.any_eq_true.mpr
              ⟨a.1, I1 a ha, pyEqScalar_refl _ (hH' _ (I1 a ha))⟩
          have hb' : l.any (fun y => pyEqScalar y b.1) = true :=
            List.any_eq_true.mpr
              ⟨b.1, I1 b hb, pyEqScalar_refl _ (hH' _ (I1 b hb))⟩
          rw [firstIdx, firstIdx, findIdx_append_left _ _ _ ha',
            findIdx_append_left _ _ _ hb']
          exact hab
        · intro p hp q hq
          rw [List.mem_singleton] at hq
          rw [hq]
          have hap : l.any (fun y => pyEqScalar y p.1) = true :=
            List.any_eq_true.mpr
              ⟨p.1, I1 p hp, pyEqScalar_refl _ (hH' _ (I1 p hp))⟩
          have h1 : firstIdx (l ++ [k]) p.1 = firstIdx l p.1 :=
            findIdx_append_left _ _ _ hap
          have h2 : firstIdx l p.1 < l.length :=
            findIdx_lt_length_of_any _ _ hap
          have h3 : firstIdx (l ++ [k]) k = l.length + firstIdx [k] k :=
            findIdx_append_right _ _ _ hanyk
          have h4 : firstIdx [k] k = 0 := by
            simp [firstIdx, List.findIdx_cons, pyEqScalar_refl k hk]
          show firstIdx (l ++ [k]) p.1 < firstIdx (l ++ [k]) k
          omega

/-! ## Lemmas about the stable descending sort -/

theorem mem_insertDesc {x p : Yaml × Nat} {l : List (Yaml × Nat)} :
    p ∈ insertDesc x l ↔ p = x ∨ p ∈ l := by
  induction l with
  | nil => simp [insertDesc]
  | cons y ys ih =>
    by_cases h : y.2 ≤ x.2 <;> (simp [insertDesc, h, ih]; try tauto)

theorem insertDesc_perm (x : Yaml × Nat) (l : List (Yaml × Nat)) :
    List.Perm (insertDesc x l) (x :: l) := by
  induction l with
  | nil => exact .refl _
  | cons y ys ih =>
    by_cases h : y.2 ≤ x.2
    · simp only [insertDesc, h, if_true]
      exact .refl _
    · simp only [insertDesc, h, if_false]
      exact (ih.cons y).trans (List.Perm.swap x y ys)

theorem pySortDesc_perm (l : List (Yaml × Nat)) : List.Perm (pySortDesc l) l := by
  induction l with
  | nil => exact .refl _
  | cons x xs ih => exact (insertDesc_perm x (pySortDesc xs)).trans (ih.cons x)

theorem mem_pySortDesc {p : Yaml × Nat} {l : List (Yaml × Nat)} :
    p ∈ pySortDesc l ↔ p ∈ l :=
  (pySortDesc_perm l).mem_iff

theorem sumCounts_pySortDesc (l : List (Yaml × Nat)) :
    sumCounts (pySortDesc l) = sumCounts l :=
  List.Perm.sum_eq ((pySortDesc_perm l).map fun p => p.2)

theorem insertDesc_sorted (x : Yaml × Nat) (l : List (Yaml × Nat))
    (h : l.Pairwise fun p q => q.2 ≤ p.2) :
    (insertDesc x l).Pairwise fun p q => q.2 ≤ p.2 := by
  induction l with
  | nil => simp [insertDesc]
  | cons y ys ih =>
    obtain ⟨h1, h2⟩ := List.pairwise_cons.mp h
    by_cases hxy : y.2 ≤ x.2
    · simp only [insertDesc, hxy, if_true]
      refine List.pairwise_cons.mpr ⟨?_, h⟩
      intro z hz
      rcases List.mem_cons.mp hz with rfl | hz
      · exact hxy
      · exact le_trans (h1 z hz) hxy
    · simp only [insertDesc, hxy, if_false]
      refine List.pairwise_cons.mpr ⟨?_, ih h2⟩
      intro z hz
      rcases mem_insertDesc.mp hz with rfl | hz
      · exact le_of_not_le hxy
      · exact h1 z hz

theorem pySortDesc_sorted (l : List (Yaml × Nat)) :
    (pySortDesc l).Pairwise fun p q => q.2 ≤ p.2 := by
  induction l with
  | nil => simp [pySortDesc]
  | cons x xs ih => exact insertDesc_sorted x (pySortDesc xs) ih

/-- Inserting an element that precedes (in input order, relation `S`) every
element of a sorted accumulator preserves the combined
descending-count-with-`S`-tie-break ordering.  This is the stability of the
insertion step. -/
theorem insertDesc_pairwise_tie {S : Yaml → Yaml → Prop} (x : Yaml × Nat)
    (l : List (Yaml × Nat))
    (hsort : l.Pairwise fun p q => q.2 ≤ p.2)
    (hT : l.Pairwise fun p q => q.2 < p.2 ∨ (p.2 = q.2 ∧ S p.1 q.1))
    (hx : ∀ y ∈ l, S x.1 y.1) :
    (insertDesc x l).Pairwise fun p q =>
      q.2 < p.2 ∨ (p.2 = q.2 ∧ S p.1 q.1) := by
  induction l with
  | nil => simp [insertDesc]
  | cons y ys ih =>
    obtain ⟨hs1, hs2⟩ := List.pairwise_cons.mp hsort
    obtain ⟨ht1, ht2⟩ := List.pairwise_cons.mp hT
    by_cases hxy : y.2 ≤ x.2
    · simp only [insertDesc, hxy, if_true]
      refine List.pairwise_cons.mpr ⟨?_, hT⟩
      intro z hz
      have hz2 : z.2 ≤ x.2 := by
        rcases List.mem_cons.mp hz with rfl | hz'
        · exact hxy
        · exact le_trans (hs1 z hz') hxy
      rcases lt_or_eq_of_le hz2 with hlt | heq
      · exact Or.inl hlt
      · exact Or.inr ⟨heq.symm, hx z hz⟩
    · simp only [insertDesc, hxy, if_false]
      refine List.pairwise_cons.mpr
        ⟨?_, ih hs2 ht2 fun z hz => hx z (List.mem_cons_of_mem y hz)⟩
      intro z hz
      rcases mem_insertDesc.mp hz with rfl | hz'
      · exact Or.inl (lt_of_not_le hxy)
      · exact ht1 z hz'

/-- Stability of the whole sort: if the input is `Pairwise S` on keys, the
output is descending by count with ties resolved by `S` (for the counters
this makes ties follow first-occurrence order). -/
theorem pySortDesc_pairwise_tie {S : Yaml → Yaml → Prop}
    (l : List (Yaml × Nat)) (h : l.Pairwise fun p q => S p.1 q.1) :
    (pySortDesc l).Pairwise fun p q =>
      q.2 < p.2 ∨ (p.2 = q.2 ∧ S p.1 q.1) := by
  induction l with
  | nil => simp [pySortDesc]
  | cons x xs ih =>
    obtain ⟨h1, h2⟩ := List.pairwise_cons.mp h
    exact insertDesc_pairwise_tie x (pySortDesc xs) (pySortDesc_sorted xs)
      (ih h2) fun z hz => h1 z (mem_pySortDesc.mp hz)

/-! ## Computing `build_essays_index` on well-shaped corpora -/

theorem goodTags_elim (v : Yaml) (h : goodTags v = true) :
    ∃ xs, v = .list xs ∧ ∀ x ∈ xs, x.isHashable = true := by
  cases v with
  | list xs =>
    refine ⟨xs, rfl, fun x hx => ?_⟩
    simp only [goodTags] at h
    exact List.all_eq_true.mp h x hx
  | null => simp [goodTags] at h
  | bool b => simp [goodTags] at h
  | int n => simp [goodTags] at h
  | str s => simp [goodTags] at h
  | map kvs => simp [goodTags] at h

theorem pyBind_ok {α β : Type} (a : α) (f : α → PyResult β) :
    (Except.ok a >>= f) = f a := rfl

theorem foldlM_counterIncr_ok (xs : List Yaml)
    (h : ∀ x ∈ xs, x.isHashable = true) (m : List (Yaml × Nat)) :
    xs.foldlM counterIncr m = .ok (xs.foldl counterAdd m) := by
  induction xs generalizing m with
  | nil => rfl
  | cons x xs ih =>
    have hx := h x (List.mem_cons_self x xs)
    simp only [List.foldlM_cons, counterIncr, hx, if_true, List.foldl_cons,
      pyBind_ok]
    exact ih (fun y hy => h y (List.mem_cons_of_mem x hy)) (counterAdd m x)

theorem essaysIndexStep_ok (e : EssayData) (h : goodEssay e = true)
    (cats tags : List (Yaml × Nat)) (w : Nat) (ents : List Entry) :
    essaysIndexStep (cats, tags, w, ents) e =
      .ok (counterAdd cats (catOf e), (tagsOf e).foldl counterAdd tags,
           w + e.computed_word_count, ents ++ [entryOf e]) := by
  simp only [goodEssay, Bool.and_eq_true] at h
  obtain ⟨⟨hmap, hcat⟩, htags⟩ := h
  obtain ⟨xs, hxs, hall⟩ := goodTags_elim _ htags
  have htagsOf : tagsOf e = xs := by simp [tagsOf, hxs]
  simp only [catOf] at hcat
  simp only [tagsValOf] at hxs
  have hIter : pyIter (fmGetD e.frontmatter "tags" (.list [])) = .ok xs := by
    rw [hxs]
    rfl
  have hFold : ∀ m, xs.foldlM counterIncr m = .ok (xs.foldl counterAdd m) :=
    fun m => foldlM_counterIncr_ok xs hall m
  rw [htagsOf]
  simp only [essaysIndexStep,
    pyGet_eq_fmGetD e.frontmatter "category" (.str "uncategorized") hmap,
    pyGet_eq_fmGetD e.frontmatter "tags" (.list []) hmap,
    pyGet_eq_fmGetD e.frontmatter "title" (.str "") hmap,
    pyGet_eq_fmGetD e.frontmatter "date" (.str "") hmap,
    pyGet_eq_fmGetD e.frontmatter "reading_time" (.str "") hmap,
    pyGet_eq_fmGetD e.frontmatter "portfolio_relevance" (.str "") hmap,
    counterIncr, hcat, if_true, hIter, hFold, pyBind_ok]
  rfl

theorem build_essays_fold (essays : List EssayData)
    (h : ∀ e ∈ essays, goodEssay e = true)
    (cats tags : List (Yaml × Nat)) (w : Nat) (ents : List Entry) :
    essays.foldlM essaysIndexStep (cats, tags, w, ents) =
      .ok ((catSeq essays).foldl counterAdd cats,
           (tagSeq essays).foldl counterAdd tags,
           w + (essays.map fun e => e.computed_word_count).sum,
           ents ++ essays.map entryOf) := by
  induction essays generalizing cats tags w ents with
  | nil =>
    simp only [catSeq, tagSeq, List.map_nil, List.flatMap_nil, List.foldl_nil,
      List.sum_nil, Nat.add_zero, List.append_nil, List.foldlM_nil]
    rfl
  | cons e es ih =>
    rw [List.foldlM_cons,
      essaysIndexStep_ok e (h e (List.mem_cons_self e es)) cats tags w ents,
      pyBind_ok,
      ih (fun x hx => h x (List.mem_cons_of_mem e hx))]
    simp only [catSeq, tagSeq, List.map_cons, List.foldl_cons,
      List.flatMap_cons, List.foldl_append, List.sum_cons, List.append_assoc,
      List.singleton_append]
    rw [Nat.add_assoc]

/-- What `build_essays_index` computes on a corpus of well-shaped essays:
`ok`, with the two frequency tables equal to the stable descending sort of
the first-occurrence counters over the category and tag sequences. -/
theorem build_essays_index_spec (today : String) (essays : List EssayData)
    (h : ∀ e ∈ essays, goodEssay e = true) :
    build_essays_index today essays = .ok
      { version := "1.1"
        updated := today
        generated_by := "essay-pipeline indexer v0.1.0"
        total_essays := essays.length
        total_words := (essays.map fun e => e.computed_word_count).sum
        categories := pySortDesc (counterOf (catSeq essays))
        tag_frequency := pySortDesc (counterOf (tagSeq essays))
        essays := essays.map entryOf } := by
  unfold build_essays_index
  rw [build_essays_fold essays h [] [] 0 [], pyBind_ok]
  simp [counterOf]
  rfl

/-- **C7**: on every corpus of well-shaped parsed documents, the category
counts of the essays index sum to `total_essays` (every document contributes
exactly one category, `"uncategorized"` when absent), and the tag-frequency
counts sum to the total number of tag occurrences across the documents'
tags lists. -/
theorem claim_C7_index_counts_sum (today : String) (essays : List EssayData)
    (h : ∀ e ∈ essays, goodEssay e = true) :
    ∃ out, build_essays_index today essays = .ok out ∧
      out.total_essays = essays.length ∧
      sumCounts out.categories = out.total_essays ∧
      sumCounts out.tag_frequency =
        (essays.map fun e => (tagsOf e).length).sum := by
  refine ⟨_, build_essays_index_spec today essays h, rfl, ?_, ?_⟩
  · show sumCounts (pySortDesc (counterOf (catSeq essays))) = essays.length
    rw [sumCounts_pySortDesc, sumCounts_counterOf]
    simp [catSeq]
  · show sumCounts (pySortDesc (counterOf (tagSeq essays))) = _
    rw [sumCounts_pySortDesc, sumCounts_counterOf]
    simp [tagSeq]
    rfl

/-- A small concrete corpus of parsed essays used by the aggregator
witnesses. -/
def sampleEssays : List EssayData :=
  [{ filename := "a.md"
     frontmatter := .map [("title", .str "A"), ("category", .str "essays"),
       ("tags", .list [.str "x", .str "y"]), ("date", .str "2024-01-02")]
     computed_word_count := 100 },
   { filename := "b.md"
     frontmatter := .map [("category", .str "essays"),
       ("tags", .list [.str "x"]), ("date", .str "2024-01-01")]
     computed_word_count := 50 },
   { filename := "c.md"
     frontmatter := .map [("title", .str "C")]
     computed_word_count := 10 }]

/-- Witness for C7 on the concrete corpus. -/
theorem claim_C7_index_counts_sum_witness :
    (∀ e ∈ sampleEssays, goodEssay e = true) ∧
    ∃ out, build_essays_index "2026-10-12" sampleEssays = .ok out ∧
      out.total_essays = sampleEssays.length ∧
      sumCounts out.categories = out.total_essays ∧
      sumCounts out.tag_frequency =
        (sampleEssays.map fun e => (tagsOf e).length).sum :=
  ⟨by decide, claim_C7_index_counts_sum "2026-10-12" sampleEssays (by decide)⟩

/-! ## Lemmas about the stable ascending sort of the calendar -/

theorem pyMap_ok {α β : Type} (g : α → β) (a : α) :
    (g <$> (Except.ok a : PyResult α)) = Except.ok (g a) := rfl

theorem pyLtPair_str (a b : String) (m n : Nat) :
    pyLtPair (.str a, m) (.str b, n) =
      .ok (decide (a < b ∨ (a = b ∧ m < n))) := by
  by_cases hab : a = b
  · subst hab
    simp [pyLtPair, pyEqScalar, lt_irrefl]
  · simp [pyLtPair, pyEqScalar, hab, pyLtYaml]

/-- Order facts for the lexicographic `(key, count)` comparison: asymmetry. -/
theorem lexLt_asymm {a b : String} {xm ym : Nat}
    (h : b < a ∨ (b = a ∧ ym < xm)) : ¬(a < b ∨ (a = b ∧ xm < ym)) := by
  rcases h with h | ⟨he, hn⟩
  · rintro (h' | ⟨he', _⟩)
    · exact absurd h' (lt_asymm h)
    · rw [he'] at h
      exact absurd h (lt_irrefl b)
  · rw [he]
    rintro (h' | ⟨_, hn'⟩)
    · exact absurd h' (lt_irrefl a)
    · omega

/-- Order facts: transitivity of the negated comparison (`≤` in disguise). -/
theorem lexLe_trans {a b d : String} {xm ym zm : Nat}
    (h1 : ¬(b < a ∨ (b = a ∧ ym < xm))) (h2 : ¬(d < b ∨ (d = b ∧ zm < ym))) :
    ¬(d < a ∨ (d = a ∧ zm < xm)) := by
  push_neg at h1 h2 ⊢
  obtain ⟨h1a, h1b⟩ := h1
  obtain ⟨h2a, h2b⟩ := h2
  refine ⟨le_trans h1a h2a, ?_⟩
  intro hda
  have hba : b = a := le_antisymm (by rw [← hda]; exact h2a) h1a
  have h1' := h1b hba
  have h2' := h2b (hda.trans hba.symm)
  omega

theorem insertAscM_ok (x : Yaml × Nat) (hx : x.1.isStr = true)
    (l : List (Yaml × Nat)) (hl : ∀ p ∈ l, p.1.isStr = true)
    (hsort : l.Pairwise fun p q => pyLtPair q p = .ok false) :
    ∃ r, insertAscM x l = .ok r ∧ List.Perm r (x :: l) ∧
      (r.Pairwise fun p q => pyLtPair q p = .ok false) := by
  induction l with
  | nil =>
    exact ⟨[x], rfl, .refl _, List.pairwise_singleton _ _⟩
  | cons y ys ih =>
    obtain ⟨hs1, hs2⟩ := List.pairwise_cons.mp hsort
    obtain ⟨a, hxa⟩ : ∃ a, x.1 = .str a := by
      cases hx' : x.1 <;> simp [hx', Yaml.isStr] at hx ⊢
    obtain ⟨b, hyb⟩ : ∃ b, y.1 = .str b := by
      have hy := hl y (List.mem_cons_self y ys)
      cases hy' : y.1 <;> simp [hy', Yaml.isStr] at hy ⊢
    have hxp : x = (.str a, x.2) := by rw [← hxa]
    have hyp : y = (.str b, y.2) := by rw [← hyb]
    have hcmp : pyLtPair y x = .ok (decide (b < a ∨ (b = a ∧ y.2 < x.2))) := by
      rw [hxp, hyp]
      exact pyLtPair_str b a y.2 x.2
    by_cases hc : b < a ∨ (b = a ∧ y.2 < x.2)
    · obtain ⟨r, hr, hperm, hpair⟩ :=
        ih (fun p hp => hl p (List.mem_cons_of_mem y hp)) hs2
      refine ⟨y :: r, ?_, ?_, ?_⟩
      · simp only [insertAscM, hcmp, pyBind_ok, decide_eq_true hc, if_true,
          hr, pyBind_ok]
        rfl
      · exact (hperm.cons y).trans (List.Perm.swap x y ys)
      · refine List.pairwise_cons.mpr ⟨?_, hpair⟩
        intro z hz
        rcases List.mem_cons.mp (hperm.mem_iff.mp hz) with hzx | hzys
        · rw [hzx, hxp, hyp, pyLtPair_str, decide_eq_false (lexLt_asymm hc)]
        · exact hs1 z hzys
    · refine ⟨x :: y :: ys, ?_, .refl _, ?_⟩
      · simp only [insertAscM, hcmp, pyBind_ok, decide_eq_false hc,
          Bool.false_eq_true, if_false]
        rfl
      · refine List.pairwise_cons.mpr ⟨?_, hsort⟩
        intro z hz
        rcases List.mem_cons.mp hz with hzy | hzys
        · rw [hzy, hcmp, decide_eq_false hc]
        · obtain ⟨d, hzd⟩ : ∃ d, z.1 = .str d := by
            have hzs := hl z (List.mem_cons_of_mem y hzys)
            cases hz' : z.1 <;> simp [hz', Yaml.isStr] at hzs ⊢
          have hzp : z = (.str d, z.2) := by rw [← hzd]
          have hzy := hs1 z hzys
          rw [hzp, hyp, pyLtPair_str] at hzy
          have hzy' : ¬(d < b ∨ (d = b ∧ z.2 < y.2)) :=
            of_decide_eq_false (Except.ok.inj hzy)
          rw [hzp, hxp, pyLtPair_str, decide_eq_false (lexLe_trans hc hzy')]

theorem pySortAscM_ok (l : List (Yaml × Nat))
    (hl : ∀ p ∈ l, p.1.isStr = true) :
    ∃ r, pySortAscM l = .ok r ∧ List.Perm r l ∧
      (r.Pairwise fun p q => pyLtPair q p = .ok false) := by
  induction l with
  | nil => exact ⟨[], rfl, .refl _, List.Pairwise.nil⟩
  | cons x xs ih =>
    obtain ⟨r, hr, hperm, hpair⟩ :=
      ih fun p hp => hl p (List.mem_cons_of_mem x hp)
    obtain ⟨r', hr', hperm', hpair'⟩ :=
      insertAscM_ok x (hl x (List.mem_cons_self x xs)) r
        (fun p hp => hl p (List.mem_cons_of_mem x (hperm.mem_iff.mp hp)))
        hpair
    refine ⟨r', ?_, hperm'.trans (hperm.cons x), hpair'⟩
    show (x :: xs).foldrM insertAscM [] = .ok r'
    rw [List.foldrM_cons]
    show xs.foldrM insertAscM [] >>= insertAscM x = .ok r'
    rw [show xs.foldrM insertAscM [] = pySortAscM xs from rfl, hr, pyBind_ok,
      hr']

/-! ## Computing `build_publication_calendar` on well-shaped corpora -/

theorem calendarStep_ok (e : EssayData) (hmap : e.frontmatter.isMap = true)
    (hhash : (dateOf e).isHashable = true) (acc : List (Yaml × Nat)) :
    calendarStep acc e = .ok (counterAdd acc (dateOf e)) := by
  simp only [dateOf] at hhash
  simp only [calendarStep,
    pyGet_eq_fmGetD e.frontmatter "date" (.str "unknown") hmap, pyBind_ok,
    counterIncr, hhash, if_true]
  rfl

theorem calendar_fold (essays : List EssayData)
    (hmap : ∀ e ∈ essays, e.frontmatter.isMap = true)
    (hhash : ∀ e ∈ essays, (dateOf e).isHashable = true)
    (m : List (Yaml × Nat)) :
    essays.foldlM calendarStep m = .ok ((dateSeq essays).foldl counterAdd m) := by
  induction essays generalizing m with
  | nil => rfl
  | cons e es ih =>
    rw [List.foldlM_cons,
      calendarStep_ok e (hmap e (List.mem_cons_self e es))
        (hhash e (List.mem_cons_self e es)) m, pyBind_ok,
      ih (fun x hx => hmap x (List.mem_cons_of_mem e hx))
        (fun x hx => hhash x (List.mem_cons_of_mem e hx))]
    rfl

theorem isStr_isHashable {v : Yaml} (h : v.isStr = true) :
    v.isHashable = true := by
  cases v <;> simp [Yaml.isStr, Yaml.isHashable] at h ⊢

/-- What `build_publication_calendar` computes on a corpus of dict-
frontmatter essays with string dates: `ok`, with `dates` a permutation of
the first-occurrence date counter, in ascending pair order. -/
theorem build_calendar_spec (today : String) (essays : List EssayData)
    (hmap : ∀ e ∈ essays, e.frontmatter.isMap = true)
    (hstr : ∀ e ∈ essays, (dateOf e).isStr = true) :
    ∃ cal, build_publication_calendar today essays = .ok cal ∧
      cal.version = "1.1" ∧ cal.updated = today ∧
      cal.total_essays = essays.length ∧
      List.Perm cal.dates (counterOf (dateSeq essays)) ∧
      (cal.dates.Pairwise fun p q => pyLtPair q p = .ok false) := by
  have hhash : ∀ e ∈ essays, (dateOf e).isHashable = true := fun e he =>
    isStr_isHashable (hstr e he)
  have hkeys : ∀ p ∈ counterOf (dateSeq essays), p.1.isStr = true := by
    intro p hp
    have h1 := (counterOf_invariant (dateSeq essays) ?_).1 p hp
    · rw [dateSeq] at h1
      obtain ⟨e, he, heq⟩ := List.mem_map.mp h1
      rw [← heq]
      exact hstr e he
    · intro y hy
      rw [dateSeq] at hy
      obtain ⟨e, he, heq⟩ := List.mem_map.mp hy
      rw [← heq]
      exact hhash e he
  obtain ⟨r, hr, hperm, hpair⟩ := pySortAscM_ok (counterOf (dateSeq essays)) hkeys
  refine ⟨{ version := "1.1", updated := today,
            total_essays := essays.length, dates := r }, ?_, rfl, rfl, rfl,
          hperm, hpair⟩
  unfold build_publication_calendar
  rw [calendar_fold essays hmap hhash [], pyBind_ok,
    show (dateSeq essays).foldl counterAdd [] = counterOf (dateSeq essays)
      from rfl, hr, pyBind_ok]
  rfl

/-- **C9**: on every corpus of dict-frontmatter essays whose `date` values
(after substituting the literal `"unknown"` placeholder for an absent date)
are strings, `build_publication_calendar` returns a mapping whose keys are
exactly the occurring date values, each mapped to the number of documents
carrying that date, listed in strictly ascending date-string order, with the
counts summing to `total_essays`. -/
theorem claim_C9_publication_calendar (today : String)
    (essays : List EssayData)
    (hmap : ∀ e ∈ essays, e.frontmatter.isMap = true)
    (hstr : ∀ e ∈ essays, (dateOf e).isStr = true) :
    ∃ cal, build_publication_calendar today essays = .ok cal ∧
      cal.total_essays = essays.length ∧
      sumCounts cal.dates = essays.length ∧
      (∀ s n, ((Yaml.str s, n) ∈ cal.dates ↔
        n ≠ 0 ∧ (essays.countP fun e => pyEqScalar (dateOf e) (.str s)) = n)) ∧
      cal.dates.Pairwise
        (fun p q => ∃ a b, p.1 = .str a ∧ q.1 = .str b ∧ a < b) := by
  obtain ⟨cal, hcal, _, _, htot, hperm, hpair⟩ :=
    build_calendar_spec today essays hmap hstr
  have hstrSeq : ∀ y ∈ dateSeq essays, y.isStr = true := by
    intro y hy
    obtain ⟨e, he, heq⟩ := List.mem_map.mp hy
    rw [← heq]
    exact hstr e he
  have hH : ∀ y ∈ dateSeq essays, y.isHashable = true := fun y hy =>
    isStr_isHashable (hstrSeq y hy)
  obtain ⟨I1, I2, I3, I4, _⟩ := counterOf_invariant (dateSeq essays) hH
  have hcountP : ∀ s : String,
      ((dateSeq essays).countP fun y => pyEqScalar y (.str s)) =
        essays.countP fun e => pyEqScalar (dateOf e) (.str s) := by
    intro s
    rw [dateSeq, List.countP_map]
    rfl
  refine ⟨cal, hcal, htot, ?_, ?_, ?_⟩
  · have := List.Perm.sum_eq (hperm.map fun p => p.2)
    rw [sumCounts, this, ← sumCounts, sumCounts_counterOf, dateSeq,
      List.length_map]
  · intro s n
    constructor
    · intro hmem
      have hc := hperm.mem_iff.mp hmem
      have hn : n = (dateSeq essays).countP fun y => pyEqScalar y (.str s) :=
        I2 _ hc
      have hk : Yaml.str s ∈ dateSeq essays := I1 _ hc
      refine ⟨?_, by rw [← hcountP s]; exact hn.symm⟩
      have hpos : 0 < (dateSeq essays).countP fun y => pyEqScalar y (.str s) :=
        List.countP_pos_iff.mpr ⟨.str s, hk, pyEqScalar_refl _ rfl⟩
      omega
    · rintro ⟨hn, hcount⟩
      rw [← hcountP s] at hcount
      have hpos : 0 < (dateSeq essays).countP fun y => pyEqScalar y (.str s) := by
        omega
      obtain ⟨y, hy, hys⟩ := List.countP_pos_iff.mp hpos
      have hyeq : y = .str s := by
        obtain ⟨t, hyt⟩ : ∃ t, y = .str t := by
          have := hstrSeq y hy
          cases hy' : y <;> simp [hy', Yaml.isStr] at this ⊢
        rw [hyt] at hys ⊢
        simp only [pyEqScalar, decide_eq_true_eq] at hys
        rw [hys]
      obtain ⟨p, hp, hps⟩ := I3 y hy
      have hpkey : p.1 = .str s := by
        obtain ⟨u, hpu⟩ : ∃ u, p.1 = .str u := by
          have hmem' := I1 p hp
          have := hstrSeq p.1 hmem'
          cases hp' : p.1 <;> simp [hp', Yaml.isStr] at this ⊢
        rw [hyeq, hpu] at hps
        simp only [pyEqScalar, decide_eq_true_eq] at hps
        rw [hpu, hps]
      have hval : p.2 = n := by
        have := I2 p hp
        rw [hpkey] at this
        omega
      have : p = (Yaml.str s, n) := by
        rw [← hpkey, ← hval]
      rw [← this]
      exact hperm.mem_iff.mpr hp
  · have hneq : cal.dates.Pairwise fun p q => pyEqScalar p.1 q.1 = false := by
      refine (List.Perm.pairwise_iff ?_ hperm).mpr I4
      intro p q h
      rw [pyEqScalar_symm]
      exact h
    have hkeysDates : ∀ p ∈ cal.dates, ∃ a, p.1 = Yaml.str a := by
      intro p hp
      have hmem' := I1 p (hperm.mem_iff.mp hp)
      have := hstrSeq p.1 hmem'
      cases hp' : p.1 <;> simp [hp', Yaml.isStr] at this ⊢
    refine (hpair.and hneq).imp_of_mem ?_
    rintro p q hp hq ⟨h1, h2⟩
    obtain ⟨a, hpa⟩ := hkeysDates p hp
    obtain ⟨b, hqb⟩ := hkeysDates q hq
    have hppair : p = (Yaml.str a, p.2) := by rw [← hpa]
    have hqpair : q = (Yaml.str b, q.2) := by rw [← hqb]
    rw [hqpair, hppair, pyLtPair_str] at h1
    have hnlt : ¬(b < a ∨ (b = a ∧ q.2 < p.2)) :=
      of_decide_eq_false (Except.ok.inj h1)
    have hab : a ≠ b := by
      rw [hpa, hqb] at h2
      simp only [pyEqScalar, decide_eq_false_iff_not] at h2
      exact h2
    refine ⟨a, b, hpa, hqb, ?_⟩
    rcases lt_trichotomy a b with h | h | h
    · exact h
    · exact absurd h hab
    · exact absurd (Or.inl h) hnlt

/-- Witness for C9 on the concrete corpus (note `c.md` has no `date`, so it
is counted under the `"unknown"` placeholder). -/
theorem claim_C9_publication_calendar_witness :
    (∀ e ∈ sampleEssays, e.frontmatter.isMap = true) ∧
    (∀ e ∈ sampleEssays, (dateOf e).isStr = true) ∧
    ∃ cal, build_publication_calendar "2026-10-12" sampleEssays = .ok cal ∧
      cal.total_essays = sampleEssays.length ∧
      sumCounts cal.dates = sampleEssays.length ∧
      (∀ s n, ((Yaml.str s, n) ∈ cal.dates ↔
        n ≠ 0 ∧
          (sampleEssays.countP fun e => pyEqScalar (dateOf e) (.str s)) = n)) ∧
      cal.dates.Pairwise
        (fun p q => ∃ a b, p.1 = .str a ∧ q.1 = .str b ∧ a < b) :=
  ⟨by decide, by decide,
   claim_C9_publication_calendar "2026-10-12" sampleEssays
     (by decide) (by decide)⟩

/-! ## Determinism of the indexer up to the `updated` stamp -/

theorem pyBind_error {α β : Type} (e : String) (f : α → PyResult β) :
    ((Except.error e : PyResult α) >>= f) = Except.error e := rfl

theorem build_essays_index_updated (d1 d2 : String)
    (essays : List EssayData) :
    build_essays_index d1 essays =
      (build_essays_index d2 essays).map fun i => { i with updated := d1 } := by
  unfold build_essays_index
  cases h : essays.foldlM essaysIndexStep
      (([] : List (Yaml × Nat)), ([] : List (Yaml × Nat)), (0 : Nat),
       ([] : List Entry)) with
  | error e => rw [pyBind_error, pyBind_error]; rfl
  | ok acc => rw [pyBind_ok, pyBind_ok]; rfl

theorem build_cross_references_updated (d1 d2 : String)
    (essays : List EssayData) :
    build_cross_references d1 essays =
      (build_cross_references d2 essays).map fun x =>
        { x with updated := d1 } := by
  unfold build_cross_references
  cases h : essays.foldlM crossRefsStep ([] : List (String × XrefEntry)) with
  | error e => rw [pyBind_error, pyBind_error]; rfl
  | ok refs => rw [pyBind_ok, pyBind_ok]; rfl

theorem build_publication_calendar_updated (d1 d2 : String)
    (essays : List EssayData) :
    build_publication_calendar d1 essays =
      (build_publication_calendar d2 essays).map fun c =>
        { c with updated := d1 } := by
  unfold build_publication_calendar
  cases h : essays.foldlM calendarStep ([] : List (Yaml × Nat)) with
  | error e => rw [pyBind_error, pyBind_error]; rfl
  | ok by_date =>
    rw [pyBind_ok, pyBind_ok]
    cases h2 : pySortAscM by_date with
    | error e => rw [pyBind_error, pyBind_error]; rfl
    | ok dates => rw [pyBind_ok, pyBind_ok]; rfl

theorem pyExceptMap_ok {α β : Type} (g : α → β) (a : α) :
    Except.map g (.ok a : PyResult α) = .ok (g a) := rfl

theorem pyExceptMap_error {α β : Type} (g : α → β) (e : String) :
    Except.map g (.error e : PyResult α) = .error e := rfl

theorem index_all_updated (parse : String → Option Yaml) (d1 d2 : String)
    (docs : List (String × String)) :
    index_all parse d1 docs =
      (index_all parse d2 docs).map fun out =>
        ({ out.1 with updated := d1 }, { out.2.1 with updated := d1 },
         { out.2.2.1 with updated := d1 }, out.2.2.2) := by
  unfold index_all
  simp only []
  rw [build_essays_index_updated d1 d2, build_cross_references_updated d1 d2,
    build_publication_calendar_updated d1 d2]
  cases h1 : build_essays_index d2
      (docs.filterMap fun d => extract_essay_data parse d.1 d.2) with
  | error e =>
    simp only [pyExceptMap_error, pyExceptMap_ok, pyBind_error, pyBind_ok]
  | ok i =>
    simp only [pyExceptMap_ok, pyBind_ok]
    cases h2 : build_cross_references d2
        (docs.filterMap fun d => extract_essay_data parse d.1 d.2) with
    | error e =>
      simp only [pyExceptMap_error, pyExceptMap_ok, pyBind_error, pyBind_ok]
    | ok x =>
      simp only [pyExceptMap_ok, pyBind_ok]
      cases h3 : build_publication_calendar d2
          (docs.filterMap fun d => extract_essay_data parse d.1 d.2) with
      | error e =>
        simp only [pyExceptMap_error, pyExceptMap_ok, pyBind_error, pyBind_ok]
      | ok c =>
        simp only [pyExceptMap_ok, pyBind_ok]
        rfl

/-- **C8**: with the current date an injected input, the indexer is a
deterministic function of the corpus.  First conjunct: running `index_all`
with two different dates yields outputs identical except for the `updated`
field of each of the three structures (in particular two runs on an
unchanged corpus differ only there).  Second conjunct: the two frequency
tables of the essays index are ordered by strictly descending count, ties
broken by the first occurrence of the key in the corpus traversal — a
deterministic, documented tie-break. -/
theorem claim_C8_indexer_deterministic_mod_updated :
    (∀ (parse : String → Option Yaml) (d1 d2 : String)
       (docs : List (String × String)),
      index_all parse d1 docs =
        (index_all parse d2 docs).map fun out =>
          ({ out.1 with updated := d1 }, { out.2.1 with updated := d1 },
           { out.2.2.1 with updated := d1 }, out.2.2.2)) ∧
    (∀ (today : String) (essays : List EssayData) (out : EssaysIndex),
      (∀ e ∈ essays, goodEssay e = true) →
      build_essays_index today essays = .ok out →
      (out.categories.Pairwise fun p q => q.2 < p.2 ∨
        (p.2 = q.2 ∧
         firstIdx (catSeq essays) p.1 < firstIdx (catSeq essays) q.1)) ∧
      (out.tag_frequency.Pairwise fun p q => q.2 < p.2 ∨
        (p.2 = q.2 ∧
         firstIdx (tagSeq essays) p.1 < firstIdx (tagSeq essays) q.1))) := by
  constructor
  · exact index_all_updated
  · intro today essays out hgood hbuild
    have hspec := build_essays_index_spec today essays hgood
    rw [hbuild] at hspec
    obtain rfl := Except.ok.inj hspec
    have hcatH : ∀ y ∈ catSeq essays, y.isHashable = true := by
      intro y hy
      obtain ⟨e, he, heq⟩ := List.mem_map.mp hy
      have hg := hgood e he
      simp only [goodEssay, Bool.and_eq_true] at hg
      rw [← heq]
      exact hg.1.2
    have htagH : ∀ y ∈ tagSeq essays, y.isHashable = true := by
      intro y hy
      obtain ⟨e, he, hmem⟩ := List.mem_flatMap.mp hy
      have hg := hgood e he
      simp only [goodEssay, Bool.and_eq_true] at hg
      obtain ⟨xs, hxs, hall⟩ := goodTags_elim _ hg.2
      have : tagsOf e = xs := by simp [tagsOf, hxs]
      rw [this] at hmem
      exact hall y hmem
    constructor
    · exact @pySortDesc_pairwise_tie
        (fun a b => firstIdx (catSeq essays) a < firstIdx (catSeq essays) b)
        (counterOf (catSeq essays))
        (counterOf_invariant (catSeq essays) hcatH).2.2.2.2
    · exact @pySortDesc_pairwise_tie
        (fun a b => firstIdx (tagSeq essays) a < firstIdx (tagSeq essays) b)
        (counterOf (tagSeq essays))
        (counterOf_invariant (tagSeq essays) htagH).2.2.2.2

/-- Witness for C8: the date-independence conjunct at a concrete corpus and
two concrete dates, and the ordering conjunct at the concrete sample
corpus. -/
theorem claim_C8_indexer_deterministic_mod_updated_witness :
    (index_all yamlSafeLoad "2026-01-01"
        [("b.md", "---\ntitle: T\n---\nbody")] =
      (index_all yamlSafeLoad "2026-01-02"
          [("b.md", "---\ntitle: T\n---\nbody")]).map fun out =>
        ({ out.1 with updated := "2026-01-01" },
         { out.2.1 with updated := "2026-01-01" },
         { out.2.2.1 with updated := "2026-01-01" }, out.2.2.2)) ∧
    ((∀ e ∈ sampleEssays, goodEssay e = true) ∧
     ∃ out, build_essays_index "2026-01-01" sampleEssays = .ok out ∧
       (out.categories.Pairwise fun p q => q.2 < p.2 ∨
         (p.2 = q.2 ∧ firstIdx (catSeq sampleEssays) p.1 <
           firstIdx (catSeq sampleEssays) q.1)) ∧
       (out.tag_frequency.Pairwise fun p q => q.2 < p.2 ∨
         (p.2 = q.2 ∧ firstIdx (tagSeq sampleEssays) p.1 <
           firstIdx (tagSeq sampleEssays) q.1))) :=
  ⟨claim_C8_indexer_deterministic_mod_updated.1 yamlSafeLoad
      "2026-01-01" "2026-01-02" [("b.md", "---\ntitle: T\n---\nbody")],
   by decide,
   ⟨_, rfl,
    claim_C8_indexer_deterministic_mod_updated.2 "2026-01-01" sampleEssays _
      (by decide) rfl⟩⟩

end EssayPipeline
